import Mathlib

/-!
Shallow embedding of the release-resolution core of the py-winget-source
repository: the GitHub provider (URL recognition, repository-identifier
extraction, release fetching and parsing, asset selection) and the provider
registry.  Machine-level effects are made explicit: the HTTP layer is an
explicit outcome value, Python exceptions are an Except value, and the
calls into the re module are a parameter supplying the compiled search
function (re.compile either fails, modelled as none, or yields a
case-insensitive search predicate on asset names).
-/

namespace Winget

/-! ## Data model (base.py and the GitHub API payloads) -/

/-- One element of the assets array of a GitHub release: a name, a direct
download URL, and a download counter that the code reads with a default of
zero when absent. -/
structure Asset where
  name : String
  browser_download_url : String
  download_count : Option Nat
deriving DecidableEq, Repr

/-- The fields of a GitHub release object that the code reads: tag_name is
read with a mandatory key access, published_at with a default of the empty
string, body with a default of none, and the assets array. -/
structure ReleaseData where
  tag_name : String
  published_at : Option String
  body : Option String
  assets : List Asset
deriving DecidableEq, Repr

/-- ReleaseInfo dataclass from base.py. -/
structure ReleaseInfo where
  version : String
  tag_name : String
  download_url : String
  published_at : String
  release_notes : Option String
deriving DecidableEq, Repr

/-! ## Asset selection (github.py, the method selecting an asset by pattern) -/

/-- Download count as the code reads it: x.get with default 0. -/
def countOf (a : Asset) : Nat := a.download_count.getD 0

/-- The comparison performed by the max call: the key of x is strictly
greater than the key of b under the tuple (download count, negated name
length), that is, strictly more downloads, or equal downloads and a
strictly shorter name. -/
def keyGtB (x b : Asset) : Bool :=
  decide (countOf b < countOf x ∨ (countOf x = countOf b ∧ x.name.length < b.name.length))

/-- The max builtin over a nonempty list with the ranking key: scan left to
right, replacing the current best only on a strictly greater key, so the
first element of a tie is kept. -/
def bestAsset (a : Asset) (l : List Asset) : Asset :=
  l.foldl (fun best x => if keyGtB x best then x else best) a

/-- Model of the method selecting an asset by pattern.  The compile
argument models re.compile with the IGNORECASE flag: none when compilation
raises re.error (the code reports the error and returns the empty string),
otherwise the search predicate applied to each asset name.  An empty
pattern returns the empty string at once; an empty match list returns the
empty string; otherwise the best asset under the two-key ranking is chosen
and its direct download URL returned. -/
def _select_asset_by_pattern (compile : String → Option (String → Bool))
    (assets : List Asset) (pattern : String) : String :=
  if pattern = "" then ""
  else
    match compile pattern with
    | none => ""
    | some search =>
      match assets.filter (fun a => search a.name) with
      | [] => ""
      | a :: rest => (bestAsset a rest).browser_download_url

/-- Parsing a release object into a ReleaseInfo (github.py).  The download
URL starts as none and is filled by asset selection only when the assets
array is nonempty and a pattern was supplied; the final value or-defaults
to the empty string.  version and tag_name both take tag_name, published_at
defaults to empty, release_notes takes body verbatim. -/
def _parse_release_data (compile : String → Option (String → Bool))
    (data : ReleaseData) (pattern : String) : ReleaseInfo :=
  let download_url : Option String :=
    if data.assets.isEmpty = false ∧ pattern ≠ "" then
      some (_select_asset_by_pattern compile data.assets pattern)
    else none
  { version := data.tag_name
    tag_name := data.tag_name
    download_url := download_url.getD ""
    published_at := data.published_at.getD ""
    release_notes := data.body }

/-! ## Release fetching (github.py, the two endpoint handlers and the
top-level boundary).  The HTTP exchange is modelled by an explicit outcome:
either the request itself raised (a transport fault, an Except error in the
model), or a response arrived carrying a status code and a body whose JSON
decoding may itself raise when eventually forced. -/

/-- Outcome of one HTTP exchange: a raised transport fault, or a response
with a status code and a body whose decoding can fail. -/
inductive NetOutcome (α : Type) where
  | fault (e : String)
  | response (status : Nat) (body : Except String α)

/-- Diagnostic printed on a 404: the repository published no release. -/
def msg_no_release (owner repo : String) : String :=
  "仓库 " ++ owner ++ "/" ++ repo ++ " 没有发布任何 release"

/-- Diagnostic printed on a 403: rate limit or authorization problem. -/
def msg_forbidden (status : Nat) : String :=
  "API 限制或权限问题: " ++ toString status

/-- Diagnostic printed on any other non-200 status of the stable path. -/
def msg_fail_stable (status : Nat) : String :=
  "获取 release 失败: HTTP " ++ toString status

/-- Diagnostic printed on any other non-200 status of the listing path. -/
def msg_fail_list (status : Nat) : String :=
  "获取 releases 失败: HTTP " ++ toString status

/-- Diagnostic printed when the release listing is empty. -/
def msg_empty_list (owner repo : String) : String :=
  "仓库 " ++ owner ++ "/" ++ repo ++ " 没有任何 release"

/-- Stable-release handler: 404, then 403, then any other non-200 status
return none together with their printed diagnostic; on a 200 the body is
decoded (a decoding failure raises) and parsed.  The Except layer carries
Python exceptions raised out of this method. -/
def _get_latest_stable_release (compile : String → Option (String → Bool))
    (owner repo : String) (net : NetOutcome ReleaseData) (pattern : String) :
    Except String (Option ReleaseInfo × List String) :=
  match net with
  | .fault e => .error e
  | .response status body =>
    if status = 404 then .ok (none, [msg_no_release owner repo])
    else if status = 403 then .ok (none, [msg_forbidden status])
    else if status ≠ 200 then .ok (none, [msg_fail_stable status])
    else
      match body with
      | .error e => .error e
      | .ok data => .ok (some (_parse_release_data compile data pattern), [])

/-- The API base URL configured at construction. -/
def api_base : String := "https://api.github.com"

/-- The request issued by the prerelease path: the releases listing
endpoint of the repository, with the per_page parameter. -/
def prerelease_request (owner repo : String) : String × Nat :=
  (api_base ++ "/repos/" ++ owner ++ "/" ++ repo ++ "/releases", 10)

/-- Prerelease handler: same status handling as the stable path, then an
empty decoded list returns none with its diagnostic, and a nonempty list
yields the first element parsed. -/
def _get_latest_release_including_prerelease
    (compile : String → Option (String → Bool)) (owner repo : String)
    (net : NetOutcome (List ReleaseData)) (pattern : String) :
    Except String (Option ReleaseInfo × List String) :=
  match net with
  | .fault e => .error e
  | .response status body =>
    if status = 404 then .ok (none, [msg_no_release owner repo])
    else if status = 403 then .ok (none, [msg_forbidden status])
    else if status ≠ 200 then .ok (none, [msg_fail_list status])
    else
      match body with
      | .error e => .error e
      | .ok [] => .ok (none, [msg_empty_list owner repo])
      | .ok (r :: _) => .ok (some (_parse_release_data compile r pattern), [])

/-! ## Repository-identifier extraction (github.py).  The code lowercases
the URL and runs three regular expressions in order; the first match yields
the owner and repository groups.  The regexes are translated by hand: a
search tries every occurrence of the literal marker github.com/ from left
to right; the owner group is the nonempty slash-free run up to the next
slash; the repository group is lazy, so it is the shortest nonempty
slash-free run whose remainder matches the fixed tail of the pattern.  The
dollar anchor, outside MULTILINE mode, matches at the end of the input or
just before one newline that ends the input, and the dot of the dot-star
matches every character except the newline; both are modelled exactly. -/

/-- The literal prefix all three regexes require at the match start. -/
def ghMarker : List Char := "github.com/".data

/-- All suffixes of the input that start right after an occurrence of the
marker, leftmost occurrence first: the candidate match starts of a search
for a pattern beginning with that literal. -/
def tailsAfterMarker (m : List Char) : List Char → List (List Char)
  | [] => []
  | c :: rest =>
    (if m.isPrefixOf (c :: rest) then [(c :: rest).drop m.length] else [])
      ++ tailsAfterMarker m rest

/-- Split a character list at the first occurrence of a separator. -/
def splitAtChar (sep : Char) : List Char → Option (List Char × List Char)
  | [] => none
  | c :: rest =>
    if c = sep then some ([], rest)
    else
      match splitAtChar sep rest with
      | none => none
      | some (a, b) => some (c :: a, b)

/-- The dollar anchor without MULTILINE: the remainder is empty, or is one
newline ending the input. -/
def endOk : List Char → Bool
  | [] => true
  | c :: r => c = '\n' && r.isEmpty

/-- Dot-star followed by the dollar anchor: a run of characters other than
the newline, optionally closed by one final newline. -/
def qTail : List Char → Bool
  | [] => true
  | c :: r => if c = '\n' then r.isEmpty else qTail r

/-- The input starts with a question mark and the rest satisfies the given
check. -/
def headQThen (f : List Char → Bool) : List Char → Bool
  | [] => false
  | c :: r => c = '?' && f r

/-- Tail of the first regex after the optional slash: the anchor alone, or
a query string made of a question mark, the dot-star and the anchor. -/
def qOk (r : List Char) : Bool := endOk r || headQThen qTail r

/-- The input starts with a slash and the rest satisfies the given
check. -/
def headSlashThen (f : List Char → Bool) : List Char → Bool
  | [] => false
  | c :: r => c = '/' && f r

/-- Optional slash followed by the optional query, then end of input. -/
def slashQOk (r : List Char) : Bool :=
  qOk r || headSlashThen qOk r

/-- The literal .git that the regexes optionally consume after the
repository group. -/
def dotGit : List Char := ".git".data

/-- Remainder check of the first regex after the repository group:
optional .git, optional slash, optional query, end of input. -/
def tail1Ok (r : List Char) : Bool :=
  slashQOk r || (dotGit.isPrefixOf r && slashQOk (r.drop 4))

def kwTree : List Char := "tree/".data
def kwBlob : List Char := "blob/".data
def kwReleases : List Char := "releases/".data
def kwActions : List Char := "actions/".data
def kwIssues : List Char := "issues/".data
def kwPull : List Char := "pull/".data

/-- The sub-page keywords of the second regex, each with its mandatory
trailing slash. -/
def kwList : List (List Char) := [kwTree, kwBlob, kwReleases, kwActions, kwIssues, kwPull]

/-- One of the sub-page keywords with trailing slash starts here. -/
def kwOk (r : List Char) : Bool := kwList.any (fun k => k.isPrefixOf r)

/-- Remainder check of the second regex after the repository group:
optional .git, then a slash, then a sub-page keyword with slash; the rest
of the input is unconstrained. -/
def tail2Ok (r : List Char) : Bool :=
  headSlashThen kwOk r || (dotGit.isPrefixOf r && headSlashThen kwOk (r.drop 4))

/-- The literal required by the third regex. -/
def archiveKw : List Char := "archive/".data

/-- Remainder check of the third regex after the repository group:
optional .git, then a slash, then the archive keyword with slash. -/
def tail3Ok (r : List Char) : Bool :=
  headSlashThen (fun r2 => archiveKw.isPrefixOf r2) r ||
    (dotGit.isPrefixOf r && headSlashThen (fun r2 => archiveKw.isPrefixOf r2) (r.drop 4))

/-- The lazy repository group: scan the slash-free run, accepting at the
first position where the remainder satisfies the pattern tail (shortest
match wins, like a lazy plus), failing at a slash or the end of input. -/
def findRepoAux (tailOk : List Char → Bool) : List Char → List Char → Option (List Char)
  | _, [] => none
  | acc, c :: rest =>
    if c = '/' then none
    else if tailOk rest then some (acc ++ [c])
    else findRepoAux tailOk (acc ++ [c]) rest

/-- First success of a function along a list, like a search scanning match
starts from the left. -/
def firstSome {α β : Type} (f : α → Option β) : List α → Option β
  | [] => none
  | a :: l =>
    match f a with
    | some b => some b
    | none => firstSome f l

/-- Search one regex, given its remainder check, over the lowered URL: at
each marker occurrence from the left, read the owner group up to the next
slash, then the lazy repository group. -/
def tryPattern (tailOk : List Char → Bool) (low : List Char) :
    Option (List Char × List Char) :=
  firstSome
    (fun t =>
      match splitAtChar '/' t with
      | none => none
      | some (o, rest) =>
        if o = [] then none
        else
          match findRepoAux tailOk [] rest with
          | none => none
          | some r => some (o, r))
    (tailsAfterMarker ghMarker low)

/-- The endswith cleanup the code applies to the repository group. -/
def stripGitSuffix (r : List Char) : List Char :=
  if dotGit.isSuffixOf r then r.take (r.length - 4) else r

/-- Character-wise lowercasing: on ASCII text this is exactly the lower
method of str (which on full Unicode applies the Unicode mapping and can
even change the length); the theorems therefore confine what they assert
about lowercasing to ASCII inputs. -/
def pyLower (l : List Char) : List Char := l.map Char.toLower

/-- The three regexes tried in order on the lowered URL. -/
def extractCore (low : List Char) : Option (List Char × List Char) :=
  match tryPattern tail1Ok low with
  | some p => some p
  | none =>
    match tryPattern tail2Ok low with
    | some p => some p
    | none => tryPattern tail3Ok low

/-- Message of the ValueError raised when no regex matches. -/
def invalidUrlMsg : String := "无法从 URL 中提取仓库信息: "

/-- Model of the method extracting owner and repository from a URL; the
error case is the raised ValueError carrying its message. -/
def extract_repo_info (url : String) : Except String (String × String) :=
  match extractCore (pyLower url.data) with
  | some (o, r) => .ok (String.mk o, String.mk (stripGitSuffix r))
  | none => .error (invalidUrlMsg ++ url)

/-! ## Top-level resolution boundary (github.py). -/

/-- The behaviour of the network environment during one resolution: what
each of the two endpoints would yield if called. -/
structure Env where
  stable : NetOutcome ReleaseData
  listing : NetOutcome (List ReleaseData)

/-- Prefix of the message printed by the top-level except clause. -/
def errPrefix : String := "获取 GitHub release 时出错: "

/-- Model of the public get_latest_release method: extract the identifier,
dispatch on include_prerelease, and convert every exception raised inside
into none plus the printed error description. -/
def get_latest_release (compile : String → Option (String → Bool)) (env : Env)
    (url : String) (include_prerelease : Bool) (pattern : String) :
    Option ReleaseInfo × List String :=
  match
    ((match extract_repo_info url with
     | .error e => .error e
     | .ok (owner, repo) =>
       if include_prerelease then
         _get_latest_release_including_prerelease compile owner repo env.listing pattern
       else
         _get_latest_stable_release compile owner repo env.stable pattern) :
      Except String (Option ReleaseInfo × List String)) with
  | .ok res => res
  | .error e => (none, [errPrefix ++ e])

/-! ## URL ownership test (github.py can_handle and base.py url parsing).
The netloc component is computed as the standard library does: strip
leading control characters and spaces, remove tab, carriage return and
newline everywhere, strip a syntactically valid scheme, and when the rest
starts with a double slash take everything up to the first slash, question
mark or hash.  An authority containing exactly one kind of square bracket
raises the invalid-IPv6 ValueError.  The parser then performs two further
validations of the authority that depend on Unicode tables and address
grammars: the bracketed-host check (a bracketed host must be a valid IPv6
or IPvFuture address) and the NFKC check (a non-ASCII authority whose
normalization introduces a delimiter raises); these are modelled by an
explicit parameter giving, for each authority, the message of the
ValueError they raise if any.  On an all-ASCII bracket-free authority both
checks pass, so the faithful instance there is the one returning none. -/

/-- Leading C0-control-or-space strip of the URL parser. -/
def dropControl (l : List Char) : List Char := l.dropWhile (fun c => c.val ≤ 32)

/-- Removal of the unsafe bytes tab, carriage return and newline. -/
def removeTabNl (l : List Char) : List Char :=
  l.filter (fun c => !(c == '\t' || c == '\r' || c == '\n'))

/-- Characters allowed inside a scheme. -/
def isSchemeChar (c : Char) : Bool := c.isAlpha || c.isDigit || c == '+' || c == '-' || c == '.'

/-- Strip a scheme when the part before the first colon is nonempty,
starts with an ASCII letter, and has only scheme characters. -/
def stripScheme (l : List Char) : List Char :=
  match splitAtChar ':' l with
  | none => l
  | some (pre, post) =>
    match pre with
    | [] => l
    | c :: _ => if c.isAlpha && pre.all isSchemeChar then post else l

/-- The authority: after a leading double slash, up to the first slash,
question mark or hash; absent otherwise. -/
def netlocRaw : List Char → Option (List Char)
  | '/' :: '/' :: rest => some (rest.takeWhile (fun c => !(c == '/' || c == '?' || c == '#')))
  | _ => none

/-- Message of the ValueError raised on a mismatched-bracket authority. -/
def ipv6Msg : String := "Invalid IPv6 URL"

/-- The netloc attribute of the parsed URL, or the raised ValueError: the
mismatched-bracket raise first, then the further authority validations
(bracketed-host and NFKC checks) supplied by the extra parameter. -/
def urlparse_netloc (extra : List Char → Option String) (url : String) :
    Except String (List Char) :=
  match netlocRaw (stripScheme (removeTabNl (dropControl url.data))) with
  | none => .ok []
  | some n =>
    if (n.contains '[' != n.contains ']') then .error ipv6Msg
    else
      match extra n with
      | some e => .error e
      | none => .ok n

def github_host : List Char := "github.com".data
def www_github_host : List Char := "www.github.com".data

/-- Model of can_handle: the lowered netloc is one of the two accepted
hosts; a parse failure propagates as the raised error. -/
def can_handle (extra : List Char → Option String) (url : String) : Except String Bool :=
  match urlparse_netloc extra url with
  | .error e => .error e
  | .ok n => .ok (pyLower n == github_host || pyLower n == www_github_host)

/-- Reading of the specification phrase, the host component of the URL:
the lowered netloc when one parses, the empty authority otherwise. -/
def hostOf (url : String) : List Char :=
  pyLower
    (match netlocRaw (stripScheme (removeTabNl (dropControl url.data))) with
     | none => []
     | some n => n)

/-! ## Registry (registry.py). -/

/-- A registered provider: its ownership test (which may raise, hence the
Except layer) and its resolution operation. -/
structure Provider where
  canHandle : String → Except String Bool
  getRelease : String → Bool → String → Option ReleaseInfo × List String

/-- Linear scan in registration order; the first provider whose ownership
test returns true wins; a raised test propagates. -/
def get_manager : List Provider → String → Except String (Option Provider)
  | [], _ => .ok none
  | m :: rest, url =>
    match m.canHandle url with
    | .error e => .error e
    | .ok true => .ok (some m)
    | .ok false => get_manager rest url

/-- Diagnostic printed when no provider claims the URL. -/
def registry_msg (url : String) : String := "没有找到支持该 URL 的包管理器: " ++ url

/-- Model of the registry resolution entry point: pick the manager, report
the unsupported URL when none claims it, else delegate. -/
def registry_get_latest_release (managers : List Provider) (url : String)
    (include_prerelease : Bool) (pattern : String) :
    Except String (Option ReleaseInfo × List String) :=
  match get_manager managers url with
  | .error e => .error e
  | .ok none => .ok (none, [registry_msg url])
  | .ok (some m) => .ok (m.getRelease url include_prerelease pattern)

/-! ## Concrete fixtures used by the claims and their witnesses. -/

/-- Case-insensitive containment of a fixed character sequence: the search
of a compiled literal pattern with the IGNORECASE flag. -/
def containsSeq (pat : List Char) : List Char → Bool
  | [] => pat.isEmpty
  | c :: rest => pat.isPrefixOf (c :: rest) || containsSeq pat rest

def winPat : String := "win"

/-- What the compiled literal pattern win with the IGNORECASE flag does to
a name under search semantics. -/
def winSearch (s : String) : Bool := containsSeq winPat.data (pyLower s.data)

/-- A compile function modelling successful compilation of the win
pattern. -/
def winCompile : String → Option (String → Bool) := fun _ => some winSearch

def appPat : String := "app.*\\.zip"
def appHead : List Char := "app".data
def zipEnd : List Char := ".zip".data

/-- What the compiled pattern app dot-star backslash-dot zip does to the
asset names of the tie fixture under search semantics: such a name starts
with app and ends with .zip. -/
def appSearch (s : String) : Bool :=
  appHead.isPrefixOf (pyLower s.data) && zipEnd.isSuffixOf (pyLower s.data)

/-- A compile function modelling successful compilation of that pattern. -/
def appCompile : String → Option (String → Bool) := fun _ => some appSearch

def asset_win32 : Asset :=
  { name := "app-win32.zip"
    browser_download_url := "https://example.com/dl/app-win32.zip"
    download_count := some 5 }

def asset_win64 : Asset :=
  { name := "app-win64.zip"
    browser_download_url := "https://example.com/dl/app-win64.zip"
    download_count := some 20 }

def asset_macos : Asset :=
  { name := "app-macos.zip"
    browser_download_url := "https://example.com/dl/app-macos.zip"
    download_count := some 20 }

def asset_app : Asset :=
  { name := "app.zip"
    browser_download_url := "https://example.com/dl/app.zip"
    download_count := some 20 }

/-- The asset list of the first selection example. -/
def exampleAssets : List Asset := [asset_win32, asset_win64, asset_macos]

/-- The asset list of the download-count tie example. -/
def tieAssets : List Asset := [asset_win64, asset_app]

def asset_twin1 : Asset :=
  { name := "app-alpha.zip"
    browser_download_url := "https://example.com/dl/app-alpha.zip"
    download_count := some 7 }

def asset_twin2 : Asset :=
  { name := "app-betaa.zip"
    browser_download_url := "https://example.com/dl/app-betaa.zip"
    download_count := some 7 }

/-- Two assets tying on both ranking keys: equal counts, equal name
lengths. -/
def twinAssets : List Asset := [asset_twin1, asset_twin2]

/-- A compile function that always fails, modelling a malformed pattern. -/
def compile0 : String → Option (String → Bool) := fun _ => none

def fault0 : String := "Cannot connect to host api.github.com"

/-- An environment in which both endpoints raise a transport fault. -/
def env0 : Env := { stable := NetOutcome.fault fault0, listing := NetOutcome.fault fault0 }

def owner0 : String := "octo"
def repo0 : String := "demo"

/-- A minimal release object. -/
def data0 : ReleaseData :=
  { tag_name := "v1.0.0", published_at := none, body := none, assets := [] }

def pub1 : String := "2024-05-01T12:00:00Z"

/-- A release object with a timestamp, notes and assets. -/
def data1 : ReleaseData :=
  { tag_name := "v2.1.0"
    published_at := some pub1
    body := some "changelog"
    assets := exampleAssets }

def jsonErr : String := "Attempt to decode JSON with unexpected mimetype"

/-- An environment whose responses arrive with status 200 but whose bodies
fail to decode. -/
def env2 : Env :=
  { stable := NetOutcome.response 200 (Except.error jsonErr)
    listing := NetOutcome.response 200 (Except.error jsonErr) }

def emptyPat : String := ""
def badUrl : String := "https://example.com/octo/demo"
def bracketUrl : String := "http://["
def ghUrl : String := "https://github.com/x/y"
def wwwGhUrl : String := "https://www.github.com/x/y"
def caseGhUrl : String := "https://GitHub.COM/x/y"
def otherUrl : String := "https://gitlab.com/x/y"

def rootUrl : String := "https://github.com/alice/hello-world"
def rootSlashUrl : String := "https://github.com/alice/hello-world/"
def gitUrl : String := "https://github.com/alice/hello-world.git"
def treeUrl : String := "https://github.com/alice/hello-world/tree/main"
def blobUrl : String := "https://github.com/alice/hello-world/blob/main/readme"
def releasesUrl : String := "https://github.com/alice/hello-world/releases/tag/v1"
def issuesUrl : String := "https://github.com/alice/hello-world/issues/1"
def pullUrl : String := "https://github.com/alice/hello-world/pull/7"
def archiveUrl : String := "https://github.com/alice/hello-world/archive/main"
def mixedCaseUrl : String := "https://GitHub.com/Alice/Hello-World.git"
def ownerA : String := "alice"
def repoA : String := "hello-world"

/-- The two-key ranking of the specification, read as a preorder: a is at
least as good as b when a has strictly more downloads, or equally many and
a name at most as long. -/
def rankGe (a b : Asset) : Prop :=
  countOf b < countOf a ∨ (countOf a = countOf b ∧ a.name.length ≤ b.name.length)

/-- A character that keeps an owner or repository segment unambiguous for
the universal extraction statement: not a slash, not a question mark, not
a dot, not a newline (the dollar anchor treats a trailing newline
specially), ASCII (where the lower method and the character-wise model
agree exactly), and fixed by lowercasing. -/
def plainChar (c : Char) : Bool :=
  (c != '/') && (c != '?') && (c != '.') && (c != '\n') &&
    decide (c.val < 128) && (Char.toLower c == c)

/-- Every character of the string is ASCII; on such strings the lower
method of str is exactly character-wise lowercasing. -/
def asciiOnly (s : String) : Bool := s.data.all (fun c => decide (c.val < 128))

/-- The concrete prefix shared by the URL shapes of the universal
extraction statement. -/
def ghRootPre : List Char := "https://github.com/".data

def sfxEmpty : List Char := []
def sfxSlash : List Char := "/".data
def sfxGit : List Char := ".git".data
def sfxTree : List Char := "/tree/main".data
def sfxBlob : List Char := "/blob/main/readme".data
def sfxReleases : List Char := "/releases/tag/v1".data
def sfxIssues : List Char := "/issues/1".data
def sfxPull : List Char := "/pull/7".data
def sfxArchive : List Char := "/archive/main".data

/-- A ReleaseInfo fixture for the registry examples. -/
def release1 : ReleaseInfo :=
  { version := "v1"
    tag_name := "v1"
    download_url := ""
    published_at := ""
    release_notes := none }

/-- A provider claiming every URL and yielding a release. -/
def providerYes : Provider :=
  { canHandle := fun _ => Except.ok true
    getRelease := fun _ _ _ => (some release1, []) }

/-- A second provider also claiming every URL, distinguishable by its
resolution result. -/
def providerYes2 : Provider :=
  { canHandle := fun _ => Except.ok true
    getRelease := fun _ _ _ => (none, []) }

/-- A provider claiming no URL. -/
def providerNo : Provider :=
  { canHandle := fun _ => Except.ok false
    getRelease := fun _ _ _ => (none, []) }

/-- The authority of the URL is free of the mismatched-bracket condition
on which the URL parser raises. -/
def noBracketMismatch (url : String) : Bool :=
  match netlocRaw (stripScheme (removeTabNl (dropControl url.data))) with
  | none => true
  | some n => !(n.contains '[' != n.contains ']')

/-- The further authority validations modelled by the extra parameter pass
on this URL. -/
def extraPasses (extra : List Char → Option String) (url : String) : Bool :=
  match netlocRaw (stripScheme (removeTabNl (dropControl url.data))) with
  | none => true
  | some n => (extra n).isNone

/-- The faithful instance of the further authority validations on URLs
whose authority is all-ASCII and bracket-free: there both library checks
return without raising. -/
def extraNone : List Char → Option String := fun _ => none

/-! ## Ranking lemmas for the max scan. -/

theorem keyGtB_irrefl (x : Asset) : keyGtB x x = false := by
  simp [keyGtB]

theorem keyGtB_trans {x a r : Asset} (h1 : keyGtB x a = true) (h2 : keyGtB a r = true) :
    keyGtB x r = true := by
  simp only [keyGtB, decide_eq_true_eq] at *
  omega

theorem keyGtB_cross {x a r : Asset} (h1 : keyGtB x r = true) (h2 : keyGtB x a = false) :
    keyGtB a r = true := by
  simp only [keyGtB, decide_eq_true_eq, decide_eq_false_iff_not] at *
  omega

theorem bestAsset_cons (a x : Asset) (t : List Asset) :
    bestAsset a (x :: t) = bestAsset (if keyGtB x a then x else a) t := rfl

theorem bestAsset_mem (a : Asset) (l : List Asset) : bestAsset a l ∈ a :: l := by
  induction l generalizing a with
  | nil => simp [bestAsset]
  | cons x t ih =>
    rw [bestAsset_cons]
    rcases List.mem_cons.mp (ih (if keyGtB x a then x else a)) with h1 | h2
    · rw [h1]
      split
      · simp
      · simp
    · simp [h2]

theorem bestAsset_not_gt (a : Asset) (l : List Asset) :
    ∀ b ∈ a :: l, keyGtB b (bestAsset a l) = false := by
  induction l generalizing a with
  | nil =>
    intro b hb
    simp only [List.mem_cons, List.not_mem_nil, or_false] at hb
    subst hb
    simpa [bestAsset] using keyGtB_irrefl b
  | cons x t ih =>
    intro b hb
    rw [bestAsset_cons]
    cases hxa : keyGtB x a with
    | true =>
      rw [if_pos rfl]
      rcases List.mem_cons.mp hb with rfl | hb2
      · have hxr := ih x x (List.mem_cons_self x t)
        cases hab : keyGtB b (bestAsset x t) with
        | false => rfl
        | true =>
          rw [keyGtB_trans hxa hab] at hxr
          cases hxr
      · exact ih x b hb2
    | false =>
      rw [if_neg (by simp)]
      rcases List.mem_cons.mp hb with rfl | hb2
      · exact ih b b (List.mem_cons_self b t)
      · rcases List.mem_cons.mp hb2 with rfl | hb3
        · have har := ih a a (List.mem_cons_self a t)
          cases hxb : keyGtB b (bestAsset a t) with
          | false => rfl
          | true =>
            rw [keyGtB_cross hxb hxa] at har
            cases har
        · exact ih a b (List.mem_cons_of_mem a hb3)

theorem bestAsset_tie (a : Asset) (l : List Asset)
    (h : ∀ b ∈ l, countOf b = countOf a ∧ b.name.length = a.name.length) :
    bestAsset a l = a := by
  induction l generalizing a with
  | nil => rfl
  | cons x t ih =>
    rw [bestAsset_cons]
    obtain ⟨h1, h2⟩ := h x (List.mem_cons_self x t)
    have hgt : keyGtB x a = false := by
      simp only [keyGtB, decide_eq_false_iff_not]
      omega
    rw [if_neg (by simp [hgt])]
    exact ih a (fun b hb => h b (List.mem_cons_of_mem x hb))

/-- C1: for every asset list and every nonempty pattern that compiles and
matches at least one asset name, selection returns the download URL of a
matching asset that is maximal under the two-key ranking (download count
descending, then name length ascending); in particular the win example
picks the win64 asset and the download-count tie picks the shorter
app.zip. -/
theorem C1_asset_selection :
    (∀ (compile : String → Option (String → Bool)) (assets : List Asset)
       (pattern : String) (search : String → Bool) (m : Asset) (ms : List Asset),
       pattern ≠ "" → compile pattern = some search →
       assets.filter (fun a => search a.name) = m :: ms →
       ∃ a, a ∈ m :: ms ∧
         _select_asset_by_pattern compile assets pattern = a.browser_download_url ∧
         ∀ b ∈ m :: ms, rankGe a b)
    ∧ _select_asset_by_pattern winCompile exampleAssets winPat =
        asset_win64.browser_download_url
    ∧ _select_asset_by_pattern appCompile tieAssets appPat =
        asset_app.browser_download_url := by
  refine ⟨?_, by decide, by decide⟩
  intro compile assets pattern search m ms hpat hcomp hfilter
  refine ⟨bestAsset m ms, bestAsset_mem m ms, ?_, ?_⟩
  · rw [_select_asset_by_pattern, if_neg hpat, hcomp]
    simp only [hfilter]
  · intro b hb
    have h := bestAsset_not_gt m ms b hb
    simp only [keyGtB, decide_eq_false_iff_not] at h
    rw [rankGe]
    omega

/-- C1 witness: the general part applied to the win fixture. -/
theorem C1_asset_selection_witness :
    ∃ a, a ∈ asset_win32 :: [asset_win64] ∧
      _select_asset_by_pattern winCompile exampleAssets winPat = a.browser_download_url ∧
      ∀ b ∈ asset_win32 :: [asset_win64], rankGe a b :=
  C1_asset_selection.1 winCompile exampleAssets winPat winSearch asset_win32
    [asset_win64] (by decide) rfl (by decide)

/-- C10: when every matching asset ties on both ranking keys, selection
returns the download URL of the first match in input order, because the
max scan replaces only on a strictly greater key. -/
theorem C10_tie_first_in_order :
    ∀ (compile : String → Option (String → Bool)) (assets : List Asset)
      (pattern : String) (search : String → Bool) (m : Asset) (ms : List Asset),
      pattern ≠ "" → compile pattern = some search →
      assets.filter (fun a => search a.name) = m :: ms →
      (∀ b ∈ m :: ms, countOf b = countOf m ∧ b.name.length = m.name.length) →
      _select_asset_by_pattern compile assets pattern = m.browser_download_url := by
  intro compile assets pattern search m ms hpat hcomp hfilter htie
  rw [_select_asset_by_pattern, if_neg hpat, hcomp]
  simp only [hfilter]
  rw [bestAsset_tie m ms (fun b hb => htie b (List.mem_cons_of_mem m hb))]

/-- C10 witness: two assets with equal counts and name lengths, the first
one in input order wins. -/
theorem C10_tie_first_in_order_witness :
    _select_asset_by_pattern appCompile twinAssets appPat =
      asset_twin1.browser_download_url :=
  C10_tie_first_in_order appCompile twinAssets appPat appSearch
    asset_twin1 [asset_twin2] (by decide) rfl (by decide) (by decide)

/-! ## Selection degradation lemmas. -/

theorem select_of_compile_none (compile : String → Option (String → Bool))
    (assets : List Asset) (pattern : String) (hc : compile pattern = none) :
    _select_asset_by_pattern compile assets pattern = "" := by
  rw [_select_asset_by_pattern]
  split
  · rfl
  · rw [hc]

theorem select_of_empty_pattern (compile : String → Option (String → Bool))
    (assets : List Asset) : _select_asset_by_pattern compile assets "" = "" := by
  rw [_select_asset_by_pattern, if_pos rfl]

/-- C6: a pattern that fails to compile makes asset selection return the
empty string, the failure is contained there (the enclosing resolution of
a fetched release still succeeds, with an empty download URL), and an
empty pattern returns the empty string at once. -/
theorem C6_compile_failure_degrades :
    (∀ (compile : String → Option (String → Bool)) (assets : List Asset) (pattern : String),
      compile pattern = none → _select_asset_by_pattern compile assets pattern = "")
    ∧ (∀ (compile : String → Option (String → Bool)) (assets : List Asset),
      _select_asset_by_pattern compile assets "" = "")
    ∧ (∀ (compile : String → Option (String → Bool)) (data : ReleaseData)
        (owner repo pattern : String),
      compile pattern = none →
      _get_latest_stable_release compile owner repo (.response 200 (.ok data)) pattern =
        .ok (some (_parse_release_data compile data pattern), []) ∧
      (_parse_release_data compile data pattern).download_url = "") := by
  refine ⟨select_of_compile_none, select_of_empty_pattern, ?_⟩
  intro compile data owner repo pattern hc
  refine ⟨rfl, ?_⟩
  simp only [_parse_release_data]
  split
  · rw [Option.getD_some]
    exact select_of_compile_none compile data.assets pattern hc
  · rw [Option.getD_none]

/-- C6 witness: the failing compile function on the example assets. -/
theorem C6_compile_failure_degrades_witness :
    _select_asset_by_pattern compile0 exampleAssets winPat = "" ∧
    _get_latest_stable_release compile0 owner0 repo0 (.response 200 (.ok data1)) winPat =
      .ok (some (_parse_release_data compile0 data1 winPat), []) ∧
    (_parse_release_data compile0 data1 winPat).download_url = "" :=
  ⟨C6_compile_failure_degrades.1 compile0 exampleAssets winPat rfl,
   (C6_compile_failure_degrades.2.2 compile0 data1 owner0 repo0 winPat rfl).1,
   (C6_compile_failure_degrades.2.2 compile0 data1 owner0 repo0 winPat rfl).2⟩

/-- C3: parsing a fetched release object yields a ReleaseInfo whose
version and tag_name both equal the tag field, whose published timestamp
and notes are taken verbatim (notes absent when the object omits them),
whose download URL is empty when no pattern was supplied or no asset
matched, and such a release is a successful resolution, never
not-found. -/
theorem C3_parse_release :
    ∀ (compile : String → Option (String → Bool)) (data : ReleaseData) (pattern : String),
      (_parse_release_data compile data pattern).version = data.tag_name ∧
      (_parse_release_data compile data pattern).tag_name = data.tag_name ∧
      (∀ s, data.published_at = some s →
        (_parse_release_data compile data pattern).published_at = s) ∧
      (_parse_release_data compile data pattern).release_notes = data.body ∧
      (pattern = "" → (_parse_release_data compile data pattern).download_url = "") ∧
      (∀ search, compile pattern = some search →
        data.assets.filter (fun a => search a.name) = [] →
        (_parse_release_data compile data pattern).download_url = "") ∧
      (∀ owner repo,
        _get_latest_stable_release compile owner repo (.response 200 (.ok data)) pattern =
          .ok (some (_parse_release_data compile data pattern), [])) := by
  intro compile data pattern
  refine ⟨rfl, rfl, ?_, rfl, ?_, ?_, fun owner repo => rfl⟩
  · intro s hs
    simp only [_parse_release_data, hs, Option.getD_some]
  · intro h
    subst h
    simp [_parse_release_data]
  · intro search hcomp hfil
    simp only [_parse_release_data]
    split
    · rename_i hcond
      rw [Option.getD_some, _select_asset_by_pattern, if_neg hcond.2, hcomp]
      simp only [hfil]
    · rw [Option.getD_none]

/-- C3 witness: the parse conclusions instantiated on concrete release
objects, including the empty-pattern and no-matching-asset cases. -/
theorem C3_parse_release_witness :
    (_parse_release_data winCompile data1 winPat).version = data1.tag_name ∧
    (_parse_release_data winCompile data1 winPat).published_at = pub1 ∧
    (_parse_release_data winCompile data1 winPat).release_notes = data1.body ∧
    (_parse_release_data winCompile data1 emptyPat).download_url = "" ∧
    (_parse_release_data winCompile data0 winPat).download_url = "" ∧
    _get_latest_stable_release winCompile owner0 repo0 (.response 200 (.ok data1)) winPat =
      .ok (some (_parse_release_data winCompile data1 winPat), []) :=
  ⟨(C3_parse_release winCompile data1 winPat).1,
   (C3_parse_release winCompile data1 winPat).2.2.1 pub1 rfl,
   (C3_parse_release winCompile data1 winPat).2.2.2.1,
   (C3_parse_release winCompile data1 emptyPat).2.2.2.2.1 rfl,
   (C3_parse_release winCompile data0 winPat).2.2.2.2.2.1 winSearch rfl rfl,
   (C3_parse_release winCompile data1 winPat).2.2.2.2.2.2 owner0 repo0⟩

/-- C2 counterexample: the original claim promises that every 2xx response
yields a parsed ReleaseInfo, but the code only accepts exactly 200, so a
201 response with a well-formed body yields not-found. -/
theorem C2_counterexample_201 :
    ¬ (∀ (status : Nat) (data : ReleaseData), 200 ≤ status → status < 300 →
        ∃ ri log,
          _get_latest_stable_release compile0 owner0 repo0
              (.response status (.ok data)) emptyPat =
            .ok (some ri, log)) := by
  intro h
  obtain ⟨ri, log, hh⟩ := h 201 data0 (by omega) (by omega)
  have he : _get_latest_stable_release compile0 owner0 repo0
      (.response 201 (.ok data0)) emptyPat = .ok (none, [msg_fail_stable 201]) := rfl
  rw [he] at hh
  simp at hh

/-- C2 amended: on both paths a 404 yields not-found with its diagnostic,
a 403 yields not-found with the rate-limit diagnostic, any other status
different from 200 (including the other 2xx codes) yields not-found with
the status surfaced in the diagnostic, and a 200 response with a decoded
body yields the parsed release (on the listing path when the list is
nonempty). -/
theorem C2_status_handling_amended :
    ∀ (compile : String → Option (String → Bool)) (owner repo pattern : String)
      (status : Nat) (data : ReleaseData) (rels : List ReleaseData),
      (status = 404 →
        _get_latest_stable_release compile owner repo (.response status (.ok data)) pattern =
          .ok (none, [msg_no_release owner repo]) ∧
        _get_latest_release_including_prerelease compile owner repo
            (.response status (.ok rels)) pattern =
          .ok (none, [msg_no_release owner repo])) ∧
      (status = 403 →
        _get_latest_stable_release compile owner repo (.response status (.ok data)) pattern =
          .ok (none, [msg_forbidden status]) ∧
        _get_latest_release_including_prerelease compile owner repo
            (.response status (.ok rels)) pattern =
          .ok (none, [msg_forbidden status])) ∧
      (status ≠ 404 → status ≠ 403 → status ≠ 200 →
        _get_latest_stable_release compile owner repo (.response status (.ok data)) pattern =
          .ok (none, [msg_fail_stable status]) ∧
        _get_latest_release_including_prerelease compile owner repo
            (.response status (.ok rels)) pattern =
          .ok (none, [msg_fail_list status])) ∧
      (status = 200 →
        _get_latest_stable_release compile owner repo (.response status (.ok data)) pattern =
          .ok (some (_parse_release_data compile data pattern), []) ∧
        (rels = [] →
          _get_latest_release_including_prerelease compile owner repo
              (.response status (.ok rels)) pattern =
            .ok (none, [msg_empty_list owner repo])) ∧
        (∀ x xs, rels = x :: xs →
          _get_latest_release_including_prerelease compile owner repo
              (.response status (.ok rels)) pattern =
            .ok (some (_parse_release_data compile x pattern), []))) := by
  intro compile owner repo pattern status data rels
  refine ⟨?_, ?_, ?_, ?_⟩
  · intro h
    subst h
    exact ⟨rfl, rfl⟩
  · intro h
    subst h
    exact ⟨rfl, rfl⟩
  · intro h404 h403 h200
    constructor
    · rw [_get_latest_stable_release, if_neg h404, if_neg h403, if_pos h200]
    · simp only [_get_latest_release_including_prerelease]
      rw [if_neg h404, if_neg h403, if_pos h200]
  · intro h
    subst h
    refine ⟨rfl, ?_, ?_⟩
    · intro h2
      subst h2
      rfl
    · intro x xs h2
      subst h2
      rfl

/-- C2 witness: the amended status handling evaluated at 404, 403, 500 and
200, on both paths. -/
theorem C2_status_handling_amended_witness :
    _get_latest_stable_release compile0 owner0 repo0 (.response 404 (.ok data0)) emptyPat =
      .ok (none, [msg_no_release owner0 repo0]) ∧
    _get_latest_stable_release compile0 owner0 repo0 (.response 403 (.ok data0)) emptyPat =
      .ok (none, [msg_forbidden 403]) ∧
    _get_latest_stable_release compile0 owner0 repo0 (.response 500 (.ok data0)) emptyPat =
      .ok (none, [msg_fail_stable 500]) ∧
    _get_latest_release_including_prerelease compile0 owner0 repo0
        (.response 500 (.ok [])) emptyPat =
      .ok (none, [msg_fail_list 500]) ∧
    _get_latest_stable_release compile0 owner0 repo0 (.response 200 (.ok data0)) emptyPat =
      .ok (some (_parse_release_data compile0 data0 emptyPat), []) ∧
    _get_latest_release_including_prerelease compile0 owner0 repo0
        (.response 200 (.ok [])) emptyPat =
      .ok (none, [msg_empty_list owner0 repo0]) ∧
    _get_latest_release_including_prerelease compile0 owner0 repo0
        (.response 200 (.ok [data0])) emptyPat =
      .ok (some (_parse_release_data compile0 data0 emptyPat), []) :=
  ⟨((C2_status_handling_amended compile0 owner0 repo0 emptyPat 404 data0 []).1 rfl).1,
   ((C2_status_handling_amended compile0 owner0 repo0 emptyPat 403 data0 []).2.1 rfl).1,
   ((C2_status_handling_amended compile0 owner0 repo0 emptyPat 500 data0 []).2.2.1
     (by omega) (by omega) (by omega)).1,
   ((C2_status_handling_amended compile0 owner0 repo0 emptyPat 500 data0 []).2.2.1
     (by omega) (by omega) (by omega)).2,
   ((C2_status_handling_amended compile0 owner0 repo0 emptyPat 200 data0 []).2.2.2 rfl).1,
   (((C2_status_handling_amended compile0 owner0 repo0 emptyPat 200 data0 []).2.2.2 rfl).2.1 rfl),
   (((C2_status_handling_amended compile0 owner0 repo0 emptyPat 200 data0 [data0]).2.2.2
     rfl).2.2 data0 [] rfl)⟩

/-- C4: the prerelease path requests the ten most recent releases; an
empty decoded list yields not-found, and a nonempty list always yields the
first element parsed, whatever follows it, with no client-side
re-sorting. -/
theorem C4_prerelease_first_of_ten :
    ∀ (compile : String → Option (String → Bool)) (owner repo pattern : String)
      (x : ReleaseData) (xs : List ReleaseData),
      (prerelease_request owner repo).2 = 10 ∧
      _get_latest_release_including_prerelease compile owner repo
          (.response 200 (.ok [])) pattern =
        .ok (none, [msg_empty_list owner repo]) ∧
      _get_latest_release_including_prerelease compile owner repo
          (.response 200 (.ok (x :: xs))) pattern =
        .ok (some (_parse_release_data compile x pattern), []) := by
  intro compile owner repo pattern x xs
  exact ⟨rfl, rfl, rfl⟩

/-- C5: the public resolution never lets a failure escape: its result is
always a ReleaseInfo or none, and each failure source (invalid URL during
extraction, a transport fault on either path, a body-decoding failure) is
converted to none together with the printed error description. -/
theorem C5_boundary_absorbs_failures :
    ∀ (compile : String → Option (String → Bool)) (env : Env) (url : String)
      (ip : Bool) (pattern : String),
      ((get_latest_release compile env url ip pattern).1 = none ∨
        ∃ ri, (get_latest_release compile env url ip pattern).1 = some ri) ∧
      (∀ e, extract_repo_info url = .error e →
        get_latest_release compile env url ip pattern = (none, [errPrefix ++ e])) ∧
      (∀ o r e, extract_repo_info url = .ok (o, r) → ip = false → env.stable = .fault e →
        get_latest_release compile env url ip pattern = (none, [errPrefix ++ e])) ∧
      (∀ o r e, extract_repo_info url = .ok (o, r) → ip = true → env.listing = .fault e →
        get_latest_release compile env url ip pattern = (none, [errPrefix ++ e])) ∧
      (∀ o r e, extract_repo_info url = .ok (o, r) → ip = false →
        env.stable = .response 200 (.error e) →
        get_latest_release compile env url ip pattern = (none, [errPrefix ++ e])) := by
  intro compile env url ip pattern
  refine ⟨?_, ?_, ?_, ?_, ?_⟩
  · cases h : (get_latest_release compile env url ip pattern).1 with
    | none => exact Or.inl rfl
    | some ri => exact Or.inr ⟨ri, rfl⟩
  · intro e he
    simp only [get_latest_release, he]
  · intro o r e ho hip hst
    subst hip
    simp only [get_latest_release, ho, hst, Bool.false_eq_true, if_false,
      _get_latest_stable_release]
  · intro o r e ho hip hl
    subst hip
    simp only [get_latest_release, ho, hl, if_true,
      _get_latest_release_including_prerelease]
  · intro o r e ho hip hst
    subst hip
    simp only [get_latest_release, ho, hst, Bool.false_eq_true, if_false,
      _get_latest_stable_release]
    norm_num

/-- C5 witness: the boundary evaluated on an unsupported URL, on transport
faults on both paths, and on a body that fails to decode. -/
theorem C5_boundary_absorbs_failures_witness :
    get_latest_release compile0 env0 badUrl false emptyPat =
      (none, [errPrefix ++ (invalidUrlMsg ++ badUrl)]) ∧
    get_latest_release compile0 env0 rootUrl false emptyPat =
      (none, [errPrefix ++ fault0]) ∧
    get_latest_release compile0 env0 rootUrl true emptyPat =
      (none, [errPrefix ++ fault0]) ∧
    get_latest_release compile0 env2 rootUrl false emptyPat =
      (none, [errPrefix ++ jsonErr]) :=
  ⟨(C5_boundary_absorbs_failures compile0 env0 badUrl false emptyPat).2.1
     (invalidUrlMsg ++ badUrl) rfl,
   (C5_boundary_absorbs_failures compile0 env0 rootUrl false emptyPat).2.2.1
     ownerA repoA fault0 rfl rfl rfl,
   (C5_boundary_absorbs_failures compile0 env0 rootUrl true emptyPat).2.2.2.1
     ownerA repoA fault0 rfl rfl rfl,
   (C5_boundary_absorbs_failures compile0 env2 rootUrl false emptyPat).2.2.2.2
     ownerA repoA jsonErr rfl rfl rfl⟩

theorem get_manager_skips (pre : List Provider) (rest : List Provider) (url : String)
    (hpre : ∀ m ∈ pre, m.canHandle url = .ok false) :
    get_manager (pre ++ rest) url = get_manager rest url := by
  induction pre with
  | nil => rfl
  | cons m t ih =>
    have hm := hpre m (List.mem_cons_self m t)
    simp only [List.cons_append, get_manager, hm]
    exact ih (fun x hx => hpre x (List.mem_cons_of_mem m hx))

/-- C8: the registry scans providers in registration order and uses the
first whose ownership test returns true — in particular the first of two
providers that both claim a URL — and when no registered provider claims
the URL it returns not-found with a diagnostic naming the URL. -/
theorem C8_registry_first_match :
    (∀ (pre : List Provider) (p : Provider) (post : List Provider) (url : String)
       (ip : Bool) (pat : String),
       (∀ m ∈ pre, m.canHandle url = .ok false) → p.canHandle url = .ok true →
       get_manager (pre ++ p :: post) url = .ok (some p) ∧
       registry_get_latest_release (pre ++ p :: post) url ip pat =
         .ok (p.getRelease url ip pat)) ∧
    (∀ (p1 p2 : Provider) (url : String),
       p1.canHandle url = .ok true → p2.canHandle url = .ok true →
       get_manager [p1, p2] url = .ok (some p1)) ∧
    (∀ (ms : List Provider) (url : String) (ip : Bool) (pat : String),
       (∀ m ∈ ms, m.canHandle url = .ok false) →
       registry_get_latest_release ms url ip pat = .ok (none, [registry_msg url])) := by
  refine ⟨?_, ?_, ?_⟩
  · intro pre p post url ip pat hpre hp
    have hm : get_manager (pre ++ p :: post) url = .ok (some p) := by
      rw [get_manager_skips pre (p :: post) url hpre]
      simp only [get_manager, hp]
    exact ⟨hm, by rw [registry_get_latest_release, hm]⟩
  · intro p1 p2 url h1 h2
    simp only [get_manager, h1]
  · intro ms url ip pat hms
    have hm : get_manager ms url = .ok none := by
      have := get_manager_skips ms [] url hms
      rw [List.append_nil] at this
      rw [this]
      rfl
    rw [registry_get_latest_release, hm]

/-- C8 witness: two providers both claiming a URL, the first registered
wins; a provider list where none claims the URL reports the unsupported
URL. -/
theorem C8_registry_first_match_witness :
    get_manager [providerYes, providerYes2] ghUrl = .ok (some providerYes) ∧
    registry_get_latest_release [providerYes, providerYes2] ghUrl false emptyPat =
      .ok (providerYes.getRelease ghUrl false emptyPat) ∧
    registry_get_latest_release [providerNo] otherUrl false emptyPat =
      .ok (none, [registry_msg otherUrl]) :=
  ⟨C8_registry_first_match.2.1 providerYes providerYes2 ghUrl rfl rfl,
   (C8_registry_first_match.1 [] providerYes [providerYes2] ghUrl false emptyPat
     (fun m hm => absurd hm (List.not_mem_nil m)) rfl).2,
   C8_registry_first_match.2.2 [providerNo] otherUrl false emptyPat
     (by
       intro m hm
       simp only [List.mem_singleton] at hm
       subst hm
       rfl)⟩

/-- C9 counterexample: the original claim says the ownership test is total
and never fails, but on a URL whose authority opens a square bracket and
never closes it the underlying URL parser raises the invalid-IPv6
ValueError, which escapes the ownership test (before the further authority
validations are even consulted). -/
theorem C9_counterexample_bracket :
    can_handle extraNone bracketUrl = .error ipv6Msg ∧
      ¬ ∃ b, can_handle extraNone bracketUrl = Except.ok b := by
  refine ⟨rfl, ?_⟩
  rintro ⟨b, hb⟩
  rw [show can_handle extraNone bracketUrl = Except.error ipv6Msg from rfl] at hb
  exact Except.noConfusion hb

/-- C9 amended: the underlying URL parser can raise ValueError on the
authority — a mismatched-bracket authority raises the invalid-IPv6 error,
and authorities with brackets or non-ASCII characters undergo the further
bracketed-host and NFKC validations, modelled by the extra parameter — so
the ownership test is not total; on every URL whose authority passes these
checks it returns a boolean that is true exactly when the host component
is the hosting domain, case-insensitively and accepting the www prefix
variant: true for the plain and www forms, false for any other host. -/
theorem C9_can_handle_amended :
    (∀ (extra : List Char → Option String) (url : String),
      noBracketMismatch url = true → extraPasses extra url = true →
      can_handle extra url =
        .ok (hostOf url == github_host || hostOf url == www_github_host)) ∧
    can_handle extraNone ghUrl = .ok true ∧
    can_handle extraNone wwwGhUrl = .ok true ∧
    can_handle extraNone caseGhUrl = .ok true ∧
    can_handle extraNone otherUrl = .ok false := by
  refine ⟨?_, rfl, rfl, rfl, rfl⟩
  intro extra url h he
  rw [noBracketMismatch] at h
  rw [extraPasses] at he
  cases hn : netlocRaw (stripScheme (removeTabNl (dropControl url.data))) with
  | none => simp only [can_handle, urlparse_netloc, hostOf, hn]
  | some n =>
    rw [hn] at h he
    simp only [Bool.not_eq_eq_eq_not, Bool.not_true, bne_eq_false_iff_eq] at h
    simp only [Option.isNone_iff_eq_none] at he
    simp only [can_handle, urlparse_netloc, hostOf, hn, h, bne_self_eq_false,
      if_neg, he]
    simp

/-- C9 witness: the amended statement applied to the plain host URL with
the faithful all-ASCII bracket-free instance of the validations. -/
theorem C9_can_handle_amended_witness :
    can_handle extraNone ghUrl =
      .ok (hostOf ghUrl == github_host || hostOf ghUrl == www_github_host) :=
  C9_can_handle_amended.1 extraNone ghUrl rfl rfl

/-! ## Marker-scanning lemmas for the extraction proofs. -/

theorem marker_not_prefix (c : Char) (t : List Char) (h : c ≠ 'g') :
    ghMarker.isPrefixOf (c :: t) = false := by
  have h1 : ghMarker.isPrefixOf (c :: t) =
      (('g' == c) && ("ithub.com/".data.isPrefixOf t)) := rfl
  rw [h1, beq_eq_false_iff_ne.mpr (Ne.symm h), Bool.false_and]

theorem tails_step (c : Char) (t : List Char) (h : c ≠ 'g') :
    tailsAfterMarker ghMarker (c :: t) = tailsAfterMarker ghMarker t := by
  simp [tailsAfterMarker, marker_not_prefix c t h]

theorem marker_isPrefixOf_append (t : List Char) :
    ghMarker.isPrefixOf (ghMarker ++ t) = true := by
  simp [List.isPrefixOf_iff_prefix]

theorem tails_hit (t : List Char) :
    tailsAfterMarker ghMarker (ghMarker ++ t) =
      t :: tailsAfterMarker ghMarker ("ithub.com/".data ++ t) := by
  show (if ghMarker.isPrefixOf (ghMarker ++ t)
        then [(ghMarker ++ t).drop ghMarker.length] else [])
      ++ tailsAfterMarker ghMarker ("ithub.com/".data ++ t) = _
  rw [marker_isPrefixOf_append t, if_pos rfl, List.drop_left ghMarker t]
  rfl

theorem dot_mem_of_marker {q : List Char} (h : ghMarker.isPrefixOf q = true) :
    '.' ∈ q := by
  rw [List.isPrefixOf_iff_prefix] at h
  obtain ⟨t, rfl⟩ := h
  exact List.mem_append_left t (by decide)

theorem tails_nil_of_no_dot (s : List Char) (h : '.' ∉ s) :
    tailsAfterMarker ghMarker s = [] := by
  induction s with
  | nil => rfl
  | cons c t ih =>
    have hp : ghMarker.isPrefixOf (c :: t) = false := by
      cases hq : ghMarker.isPrefixOf (c :: t) with
      | false => rfl
      | true => exact absurd (dot_mem_of_marker hq) h
    simp [tailsAfterMarker, hp, ih (fun hm => h (List.mem_cons_of_mem c hm))]

theorem tails_http (rest : List Char) :
    tailsAfterMarker ghMarker (ghRootPre ++ rest) =
      rest :: tailsAfterMarker ghMarker rest := by
  have h0 : ghRootPre ++ rest =
      'h' :: 't' :: 't' :: 'p' :: 's' :: ':' :: '/' :: '/' :: (ghMarker ++ rest) := rfl
  rw [h0, tails_step 'h' _ (by decide), tails_step 't' _ (by decide),
    tails_step 't' _ (by decide), tails_step 'p' _ (by decide),
    tails_step 's' _ (by decide), tails_step ':' _ (by decide),
    tails_step '/' _ (by decide), tails_step '/' _ (by decide), tails_hit rest]
  have h1 : "ithub.com/".data ++ rest =
      'i' :: 't' :: 'h' :: 'u' :: 'b' :: '.' :: 'c' :: 'o' :: 'm' :: '/' :: rest := rfl
  rw [h1, tails_step 'i' _ (by decide), tails_step 't' _ (by decide),
    tails_step 'h' _ (by decide), tails_step 'u' _ (by decide),
    tails_step 'b' _ (by decide), tails_step '.' _ (by decide),
    tails_step 'c' _ (by decide), tails_step 'o' _ (by decide),
    tails_step 'm' _ (by decide), tails_step '/' _ (by decide)]

/-! ## Segment lemmas for the extraction proofs. -/

theorem plainChar_spec {c : Char} (h : plainChar c = true) :
    c ≠ '/' ∧ c ≠ '?' ∧ c ≠ '.' ∧ c ≠ '\n' ∧ c.val < 128 ∧ Char.toLower c = c := by
  simp only [plainChar, Bool.and_eq_true, bne_iff_ne, beq_iff_eq,
    decide_eq_true_eq] at h
  exact ⟨h.1.1.1.1.1, h.1.1.1.1.2, h.1.1.1.2, h.1.1.2, h.1.2, h.2⟩

theorem splitAtChar_cons (sep c : Char) (rest : List Char) :
    splitAtChar sep (c :: rest) =
      if c = sep then some ([], rest)
      else
        match splitAtChar sep rest with
        | none => none
        | some (a, b) => some (c :: a, b) := rfl

theorem splitAtChar_append (owner rest : List Char) (h : ∀ c ∈ owner, c ≠ '/') :
    splitAtChar '/' (owner ++ '/' :: rest) = some (owner, rest) := by
  induction owner with
  | nil =>
    rw [List.nil_append, splitAtChar_cons, if_pos rfl]
  | cons c t ih =>
    have hc := h c (List.mem_cons_self c t)
    have iht := ih (fun x hx => h x (List.mem_cons_of_mem c hx))
    rw [List.cons_append, splitAtChar_cons, if_neg hc, iht]

theorem dotGit_not_prefix {c : Char} (r : List Char) (h3 : c ≠ '.') :
    dotGit.isPrefixOf (c :: r) = false := by
  have h1 : dotGit.isPrefixOf (c :: r) = (('.' == c) && ("git".data.isPrefixOf r)) := rfl
  rw [h1, beq_eq_false_iff_ne.mpr (Ne.symm h3), Bool.false_and]

theorem headSlashThen_plain (f : List Char → Bool) {c : Char} (r : List Char)
    (h : c ≠ '/') : headSlashThen f (c :: r) = false := by
  simp [headSlashThen, h]

theorem tail1Ok_plain {c : Char} (r : List Char) (hp : plainChar c = true) :
    tail1Ok (c :: r) = false := by
  obtain ⟨h1, h2, h3, h4, _, _⟩ := plainChar_spec hp
  simp [tail1Ok, slashQOk, qOk, endOk, headQThen, headSlashThen_plain,
    h1, h2, h3, h4, dotGit_not_prefix]

theorem tail2Ok_plain {c : Char} (r : List Char) (hp : plainChar c = true) :
    tail2Ok (c :: r) = false := by
  obtain ⟨h1, _, h3, _, _, _⟩ := plainChar_spec hp
  simp [tail2Ok, headSlashThen_plain, h1, h3, dotGit_not_prefix]

theorem tail3Ok_plain {c : Char} (r : List Char) (hp : plainChar c = true) :
    tail3Ok (c :: r) = false := by
  obtain ⟨h1, _, h3, _, _, _⟩ := plainChar_spec hp
  simp [tail3Ok, headSlashThen_plain, h1, h3, dotGit_not_prefix]

theorem findRepoAux_cons (tailOk : List Char → Bool) (acc : List Char) (c : Char)
    (rest : List Char) :
    findRepoAux tailOk acc (c :: rest) =
      if c = '/' then none
      else if tailOk rest then some (acc ++ [c])
      else findRepoAux tailOk (acc ++ [c]) rest := rfl

theorem findRepoAux_success (tailOk : List Char → Bool) (repo suffix : List Char)
    (hne : repo ≠ [])
    (hchars : ∀ c ∈ repo, plainChar c = true)
    (hbad : ∀ (c : Char) (r2 : List Char), plainChar c = true →
      tailOk (c :: r2) = false)
    (hok : tailOk suffix = true) :
    ∀ acc, findRepoAux tailOk acc (repo ++ suffix) = some (acc ++ repo) := by
  induction repo with
  | nil => exact absurd rfl hne
  | cons c t ih =>
    intro acc
    have hc1 := (plainChar_spec (hchars c (List.mem_cons_self c t))).1
    rw [List.cons_append, findRepoAux_cons, if_neg hc1]
    cases t with
    | nil =>
      rw [List.nil_append, hok, if_pos rfl]
    | cons c2 t2 =>
      rw [List.cons_append]
      have hb : tailOk (c2 :: (t2 ++ suffix)) = false := hbad c2 (t2 ++ suffix)
        (hchars c2 (List.mem_cons_of_mem c (List.mem_cons_self c2 t2)))
      rw [hb, if_neg (by simp)]
      have ihh := ih (by simp)
        (fun x hx => hchars x (List.mem_cons_of_mem c hx)) (acc ++ [c])
      rw [List.cons_append] at ihh
      rw [ihh]
      simp

theorem findRepoAux_fail (tailOk : List Char → Bool) (repo s2 : List Char)
    (hchars : ∀ c ∈ repo, plainChar c = true)
    (hbad : ∀ (c : Char) (r2 : List Char), plainChar c = true →
      tailOk (c :: r2) = false)
    (hfail : tailOk ('/' :: s2) = false) :
    ∀ acc, findRepoAux tailOk acc (repo ++ '/' :: s2) = none := by
  induction repo with
  | nil =>
    intro acc
    rw [List.nil_append, findRepoAux_cons, if_pos rfl]
  | cons c t ih =>
    intro acc
    have hc1 := (plainChar_spec (hchars c (List.mem_cons_self c t))).1
    rw [List.cons_append, findRepoAux_cons, if_neg hc1]
    cases t with
    | nil =>
      rw [List.nil_append, hfail, if_neg (by simp)]
      rw [findRepoAux_cons, if_pos rfl]
    | cons c2 t2 =>
      rw [List.cons_append]
      have hb : tailOk (c2 :: (t2 ++ '/' :: s2)) = false := hbad c2 (t2 ++ '/' :: s2)
        (hchars c2 (List.mem_cons_of_mem c (List.mem_cons_self c2 t2)))
      rw [hb, if_neg (by simp)]
      have ihh := ih (fun x hx => hchars x (List.mem_cons_of_mem c hx)) (acc ++ [c])
      rw [List.cons_append] at ihh
      exact ihh

theorem stripGitSuffix_plain (r : List Char) (h : ∀ c ∈ r, plainChar c = true) :
    stripGitSuffix r = r := by
  have hdot : '.' ∉ r := fun hm => (plainChar_spec (h '.' hm)).2.2.1 rfl
  rw [stripGitSuffix]
  cases hs : dotGit.isSuffixOf r with
  | false => rw [if_neg (by simp)]
  | true =>
    rw [List.isSuffixOf_iff_suffix] at hs
    obtain ⟨p, rfl⟩ := hs
    exact absurd (List.mem_append_right p (by decide)) hdot

theorem pyLower_append (a b : List Char) : pyLower (a ++ b) = pyLower a ++ pyLower b :=
  List.map_append Char.toLower a b

theorem pyLower_fixed (l : List Char) (h : ∀ c ∈ l, Char.toLower c = c) :
    pyLower l = l := by
  induction l with
  | nil => rfl
  | cons c t ih =>
    simp only [pyLower, List.map_cons, h c (List.mem_cons_self c t)]
    rw [show List.map Char.toLower t = t from
      ih (fun x hx => h x (List.mem_cons_of_mem c hx))]

/-! ## Master lemmas: extraction on each family of URL shapes. -/

theorem extract_lower_url (owner repo suffix : List Char)
    (hoc : ∀ c ∈ owner, plainChar c = true)
    (hrc : ∀ c ∈ repo, plainChar c = true)
    (hs : pyLower suffix = suffix) :
    pyLower (ghRootPre ++ (owner ++ ('/' :: (repo ++ suffix)))) =
      ghRootPre ++ (owner ++ ('/' :: (repo ++ suffix))) := by
  have hmo : pyLower owner = owner :=
    pyLower_fixed owner (fun c hc => (plainChar_spec (hoc c hc)).2.2.2.2.2)
  have hmr : pyLower repo = repo :=
    pyLower_fixed repo (fun c hc => (plainChar_spec (hrc c hc)).2.2.2.2.2)
  have hpre : pyLower ghRootPre = ghRootPre := rfl
  have hcons : pyLower ('/' :: (repo ++ suffix)) = '/' :: pyLower (repo ++ suffix) := rfl
  rw [pyLower_append, hpre, pyLower_append, hmo, hcons, pyLower_append, hmr, hs]

theorem extract_p1 (owner repo suffix : List Char)
    (ho : owner ≠ []) (hoc : ∀ c ∈ owner, plainChar c = true)
    (hr : repo ≠ []) (hrc : ∀ c ∈ repo, plainChar c = true)
    (hs : pyLower suffix = suffix)
    (h1 : tail1Ok suffix = true) :
    extract_repo_info (String.mk (ghRootPre ++ (owner ++ ('/' :: (repo ++ suffix))))) =
      .ok (String.mk owner, String.mk repo) := by
  have hoc2 : ∀ c ∈ owner, c ≠ '/' := fun c hc => (plainChar_spec (hoc c hc)).1
  have hsplit := splitAtChar_append owner (repo ++ suffix) hoc2
  have hfind := findRepoAux_success tail1Ok repo suffix hr hrc
    (fun c r2 hp => tail1Ok_plain r2 hp) h1 []
  rw [List.nil_append] at hfind
  have htry1 : tryPattern tail1Ok (ghRootPre ++ (owner ++ ('/' :: (repo ++ suffix)))) =
      some (owner, repo) := by
    rw [tryPattern, tails_http]
    simp only [firstSome, hsplit, if_neg ho, hfind]
  have hdata : (String.mk (ghRootPre ++ (owner ++ ('/' :: (repo ++ suffix))))).data =
      ghRootPre ++ (owner ++ ('/' :: (repo ++ suffix))) := rfl
  have hlow := extract_lower_url owner repo suffix hoc hrc hs
  simp only [extract_repo_info, hdata, hlow, extractCore, htry1]
  rw [stripGitSuffix_plain repo hrc]

theorem extract_p2 (owner repo s2 : List Char)
    (ho : owner ≠ []) (hoc : ∀ c ∈ owner, plainChar c = true)
    (hr : repo ≠ []) (hrc : ∀ c ∈ repo, plainChar c = true)
    (hs : pyLower ('/' :: s2) = '/' :: s2)
    (hdot : '.' ∉ ('/' :: s2))
    (h1 : tail1Ok ('/' :: s2) = false)
    (h2 : tail2Ok ('/' :: s2) = true) :
    extract_repo_info
        (String.mk (ghRootPre ++ (owner ++ ('/' :: (repo ++ ('/' :: s2)))))) =
      .ok (String.mk owner, String.mk repo) := by
  have hoc2 : ∀ c ∈ owner, c ≠ '/' := fun c hc => (plainChar_spec (hoc c hc)).1
  have hsplit := splitAtChar_append owner (repo ++ ('/' :: s2)) hoc2
  have hrest_nodot : '.' ∉ (owner ++ ('/' :: (repo ++ ('/' :: s2)))) := by
    intro hm
    rcases List.mem_append.mp hm with hmo | hmx
    · exact (plainChar_spec (hoc '.' hmo)).2.2.1 rfl
    · rcases List.mem_cons.mp hmx with hsl | hmy
      · exact absurd hsl (by decide)
      · rcases List.mem_append.mp hmy with hmr | hms
        · exact (plainChar_spec (hrc '.' hmr)).2.2.1 rfl
        · exact hdot hms
  have htails := tails_nil_of_no_dot _ hrest_nodot
  have hfail1 := findRepoAux_fail tail1Ok repo s2 hrc
    (fun c r2 hp => tail1Ok_plain r2 hp) h1 []
  have hfind2 := findRepoAux_success tail2Ok repo ('/' :: s2) hr hrc
    (fun c r2 hp => tail2Ok_plain r2 hp) h2 []
  rw [List.nil_append] at hfind2
  have htry1 : tryPattern tail1Ok
      (ghRootPre ++ (owner ++ ('/' :: (repo ++ ('/' :: s2))))) = none := by
    rw [tryPattern, tails_http, htails]
    simp only [firstSome, hsplit, if_neg ho, hfail1]
  have htry2 : tryPattern tail2Ok
      (ghRootPre ++ (owner ++ ('/' :: (repo ++ ('/' :: s2))))) = some (owner, repo) := by
    rw [tryPattern, tails_http, htails]
    simp only [firstSome, hsplit, if_neg ho, hfind2]
  have hdata : (String.mk (ghRootPre ++ (owner ++ ('/' :: (repo ++ ('/' :: s2)))))).data =
      ghRootPre ++ (owner ++ ('/' :: (repo ++ ('/' :: s2)))) := rfl
  have hlow := extract_lower_url owner repo ('/' :: s2) hoc hrc hs
  simp only [extract_repo_info, hdata, hlow, extractCore, htry1, htry2]
  rw [stripGitSuffix_plain repo hrc]

theorem extract_p3 (owner repo s2 : List Char)
    (ho : owner ≠ []) (hoc : ∀ c ∈ owner, plainChar c = true)
    (hr : repo ≠ []) (hrc : ∀ c ∈ repo, plainChar c = true)
    (hs : pyLower ('/' :: s2) = '/' :: s2)
    (hdot : '.' ∉ ('/' :: s2))
    (h1 : tail1Ok ('/' :: s2) = false)
    (h2 : tail2Ok ('/' :: s2) = false)
    (h3 : tail3Ok ('/' :: s2) = true) :
    extract_repo_info
        (String.mk (ghRootPre ++ (owner ++ ('/' :: (repo ++ ('/' :: s2)))))) =
      .ok (String.mk owner, String.mk repo) := by
  have hoc2 : ∀ c ∈ owner, c ≠ '/' := fun c hc => (plainChar_spec (hoc c hc)).1
  have hsplit := splitAtChar_append owner (repo ++ ('/' :: s2)) hoc2
  have hrest_nodot : '.' ∉ (owner ++ ('/' :: (repo ++ ('/' :: s2)))) := by
    intro hm
    rcases List.mem_append.mp hm with hmo | hmx
    · exact (plainChar_spec (hoc '.' hmo)).2.2.1 rfl
    · rcases List.mem_cons.mp hmx with hsl | hmy
      · exact absurd hsl (by decide)
      · rcases List.mem_append.mp hmy with hmr | hms
        · exact (plainChar_spec (hrc '.' hmr)).2.2.1 rfl
        · exact hdot hms
  have htails := tails_nil_of_no_dot _ hrest_nodot
  have hfail1 := findRepoAux_fail tail1Ok repo s2 hrc
    (fun c r2 hp => tail1Ok_plain r2 hp) h1 []
  have hfail2 := findRepoAux_fail tail2Ok repo s2 hrc
    (fun c r2 hp => tail2Ok_plain r2 hp) h2 []
  have hfind3 := findRepoAux_success tail3Ok repo ('/' :: s2) hr hrc
    (fun c r2 hp => tail3Ok_plain r2 hp) h3 []
  rw [List.nil_append] at hfind3
  have htry1 : tryPattern tail1Ok
      (ghRootPre ++ (owner ++ ('/' :: (repo ++ ('/' :: s2))))) = none := by
    rw [tryPattern, tails_http, htails]
    simp only [firstSome, hsplit, if_neg ho, hfail1]
  have htry2 : tryPattern tail2Ok
      (ghRootPre ++ (owner ++ ('/' :: (repo ++ ('/' :: s2))))) = none := by
    rw [tryPattern, tails_http, htails]
    simp only [firstSome, hsplit, if_neg ho, hfail2]
  have htry3 : tryPattern tail3Ok
      (ghRootPre ++ (owner ++ ('/' :: (repo ++ ('/' :: s2))))) = some (owner, repo) := by
    rw [tryPattern, tails_http, htails]
    simp only [firstSome, hsplit, if_neg ho, hfind3]
  have hdata : (String.mk (ghRootPre ++ (owner ++ ('/' :: (repo ++ ('/' :: s2)))))).data =
      ghRootPre ++ (owner ++ ('/' :: (repo ++ ('/' :: s2)))) := rfl
  have hlow := extract_lower_url owner repo ('/' :: s2) hoc hrc hs
  simp only [extract_repo_info, hdata, hlow, extractCore, htry1, htry2, htry3]
  rw [stripGitSuffix_plain repo hrc]

/-- C7: extraction is determined by the lowercased URL (case-insensitive;
stated on ASCII inputs, where the lower method of str is exactly
character-wise lowercasing), returns the same owner and repository pair
across every supported shape — bare root, trailing slash, trailing .git,
tree, blob, releases, issues and pull sub-pages, and archive links — for
every owner and repository made of plain ASCII characters, with any
trailing .git stripped from the repository, and fails with the invalid-URL
ValueError on every URL matched by none of the three regexes. -/
theorem C7_extract_repo_identity :
    (∀ u v : String, asciiOnly u = true → asciiOnly v = true →
      pyLower u.data = pyLower v.data →
      (extract_repo_info u).toOption = (extract_repo_info v).toOption) ∧
    (∀ owner repo : List Char,
      owner ≠ [] → (∀ c ∈ owner, plainChar c = true) →
      repo ≠ [] → (∀ c ∈ repo, plainChar c = true) →
      extract_repo_info
          (String.mk (ghRootPre ++ (owner ++ ('/' :: (repo ++ sfxEmpty))))) =
        .ok (String.mk owner, String.mk repo) ∧
      extract_repo_info
          (String.mk (ghRootPre ++ (owner ++ ('/' :: (repo ++ sfxSlash))))) =
        .ok (String.mk owner, String.mk repo) ∧
      extract_repo_info
          (String.mk (ghRootPre ++ (owner ++ ('/' :: (repo ++ sfxGit))))) =
        .ok (String.mk owner, String.mk repo) ∧
      extract_repo_info
          (String.mk (ghRootPre ++ (owner ++ ('/' :: (repo ++ sfxTree))))) =
        .ok (String.mk owner, String.mk repo) ∧
      extract_repo_info
          (String.mk (ghRootPre ++ (owner ++ ('/' :: (repo ++ sfxBlob))))) =
        .ok (String.mk owner, String.mk repo) ∧
      extract_repo_info
          (String.mk (ghRootPre ++ (owner ++ ('/' :: (repo ++ sfxReleases))))) =
        .ok (String.mk owner, String.mk repo) ∧
      extract_repo_info
          (String.mk (ghRootPre ++ (owner ++ ('/' :: (repo ++ sfxIssues))))) =
        .ok (String.mk owner, String.mk repo) ∧
      extract_repo_info
          (String.mk (ghRootPre ++ (owner ++ ('/' :: (repo ++ sfxPull))))) =
        .ok (String.mk owner, String.mk repo) ∧
      extract_repo_info
          (String.mk (ghRootPre ++ (owner ++ ('/' :: (repo ++ sfxArchive))))) =
        .ok (String.mk owner, String.mk repo)) ∧
    (∀ url : String, extractCore (pyLower url.data) = none →
      extract_repo_info url = .error (invalidUrlMsg ++ url)) ∧
    extract_repo_info badUrl = .error (invalidUrlMsg ++ badUrl) ∧
    extract_repo_info mixedCaseUrl = .ok (ownerA, repoA) := by
  refine ⟨?_, ?_, ?_, rfl, rfl⟩
  · intro u v _ _ h
    simp only [extract_repo_info, h]
    cases hc : extractCore (pyLower v.data) with
    | none => rfl
    | some p => rfl
  · intro owner repo ho hoc hr hrc
    exact ⟨extract_p1 owner repo sfxEmpty ho hoc hr hrc rfl (by decide),
      extract_p1 owner repo sfxSlash ho hoc hr hrc rfl (by decide),
      extract_p1 owner repo sfxGit ho hoc hr hrc rfl (by decide),
      extract_p2 owner repo _ ho hoc hr hrc rfl (by decide) (by decide) (by decide),
      extract_p2 owner repo _ ho hoc hr hrc rfl (by decide) (by decide) (by decide),
      extract_p2 owner repo _ ho hoc hr hrc rfl (by decide) (by decide) (by decide),
      extract_p2 owner repo _ ho hoc hr hrc rfl (by decide) (by decide) (by decide),
      extract_p2 owner repo _ ho hoc hr hrc rfl (by decide) (by decide) (by decide),
      extract_p3 owner repo _ ho hoc hr hrc rfl (by decide) (by decide) (by decide)
        (by decide)⟩
  · intro url hc
    simp only [extract_repo_info, hc]

/-- C7 witness: the universal shape statement applied to a concrete owner
and repository on the tree shape, the case-insensitivity statement applied
to a mixed-case URL and its lowercase form, and the failure statement
applied to a non-GitHub URL. -/
theorem C7_extract_repo_identity_witness :
    extract_repo_info
        (String.mk (ghRootPre ++ (ownerA.data ++ ('/' :: (repoA.data ++ sfxTree))))) =
      .ok (String.mk ownerA.data, String.mk repoA.data) ∧
    (extract_repo_info mixedCaseUrl).toOption = (extract_repo_info gitUrl).toOption ∧
    extract_repo_info badUrl = .error (invalidUrlMsg ++ badUrl) :=
  ⟨(C7_extract_repo_identity.2.1 ownerA.data repoA.data (by decide) (by decide)
      (by decide) (by decide)).2.2.2.1,
   C7_extract_repo_identity.1 mixedCaseUrl gitUrl (by decide) (by decide) (by decide),
   C7_extract_repo_identity.2.2.1 badUrl rfl⟩

end Winget
